import Mathlib

/-!
Verification of the navigation-driven specification aggregator
(`scripts/generate-spec-txt.ts`).

Strings are modelled as `List Char` (`Str`).  The filesystem is modelled as a
function from paths to a read result that distinguishes success, non-existence
(ENOENT) and any other read failure (such as a permissions error).  The
`docs.json` configuration is taken as an already-parsed structured value; the
reading/parsing of `docs.json`, the output-file writes and the run-level
informational console messages are outside the model.  Per-page console
messages are modelled (`console.log` as `Sev.info`, `console.warn` as
`Sev.warn`); the decorative glyph at the start of each message is omitted.
A run that throws (caught by the top-level handler, which calls
`process.exit(1)`) is modelled as `Except.error`; a completed run is
`Except.ok` (zero completion status).
-/

namespace SpecGen

abbrev Str := List Char

/-- Models `String.prototype.toLowerCase` on the ASCII range (the only labels
compared in the program are ASCII). -/
def asciiLower (s : Str) : Str :=
  s.map (fun c => if 'A' ≤ c ∧ c ≤ 'Z' then Char.ofNat (c.toNat + 32) else c)

/-- Models `String.prototype.includes(needle)`. -/
def hasSub (hay needle : Str) : Bool :=
  needle.isPrefixOf hay ||
    (match hay with
     | [] => false
     | _ :: t => hasSub t needle)

/-- Index of the earliest occurrence of `needle` in `hay`
(`String.prototype.indexOf`), `none` if absent. -/
def indexOfSub (hay needle : Str) : Option Nat :=
  if needle.isPrefixOf hay then some 0
  else
    match hay with
    | [] => none
    | _ :: t => (indexOfSub t needle).map (· + 1)

/-- Models `String.prototype.replace` with a plain-string pattern: replaces the
earliest occurrence of `needle` (if any) by `repl`. -/
def replaceFirst (hay needle repl : Str) : Str :=
  if needle.isPrefixOf hay then repl ++ hay.drop needle.length
  else
    match hay with
    | [] => []
    | c :: t => c :: replaceFirst t needle repl

/-- ECMAScript whitespace (the set trimmed by `String.prototype.trim`):
TAB..CR, space, NBSP, the Unicode space separators, LS, PS and ZWNBSP. -/
def jsWS (c : Char) : Bool :=
  decide ((9 ≤ c.toNat ∧ c.toNat ≤ 13) ∨ c.toNat = 32 ∨ c.toNat = 160 ∨
    c.toNat = 0x1680 ∨ (0x2000 ≤ c.toNat ∧ c.toNat ≤ 0x200A) ∨
    c.toNat = 0x2028 ∨ c.toNat = 0x2029 ∨ c.toNat = 0x202F ∨
    c.toNat = 0x205F ∨ c.toNat = 0x3000 ∨ c.toNat = 0xFEFF)

/-- Models `String.prototype.trim`. -/
def jsTrim (s : Str) : Str :=
  ((s.dropWhile jsWS).reverse.dropWhile jsWS).reverse

/-! ## Navigation data model (the `docs.json` shape used by the script) -/

mutual

/-- A page entry: either a raw string reference (LeafPage) or a nested
navigation object with an optional label and a `pages` array (SubGroup).
In the TypeScript interfaces every non-string item has a `pages` array, so the
`else if (item.pages)` guard in the source is always taken for `sub`. -/
inductive PageNode where
  | leaf (ref : Str)
  | sub (label : Option Str) (pages : PageNodes)

/-- The `pages` sequence, given its own list type (isomorphic to
`List PageNode`) so that the traversal below is structurally recursive. -/
inductive PageNodes where
  | nil
  | cons (head : PageNode) (tail : PageNodes)

end

/-- Builds a `PageNodes` sequence from a plain list. -/
def pnodes : List PageNode → PageNodes
  | [] => PageNodes.nil
  | h :: t => PageNodes.cons h (pnodes t)

structure Group where
  group : Str
  pages : PageNodes

structure Tab where
  tab : Str
  groups : List Group

structure DocsConfig where
  tabs : List Tab

/-! ## Node `path.posix.join` (used with an always-empty base path) -/

/-- Split on the path separator, as the segment phase of
`path.posix.normalize`. -/
def splitOnSlash : Str → List Str
  | [] => [[]]
  | c :: rest =>
    let r := splitOnSlash rest
    if c = '/' then [] :: r
    else
      match r with
      | h :: t => (c :: h) :: t
      | [] => [[c]]

/-- Segment resolution of `path.posix.normalize`: drops empty and `.` segments
and resolves `..` against the segment stack (keeping leading `..` segments for
relative paths). -/
def normSegs (allowUp : Bool) : List Str → List Str → List Str
  | acc, [] => acc.reverse
  | acc, seg :: rest =>
    if seg = [] ∨ seg = ['.'] then normSegs allowUp acc rest
    else if seg = ['.', '.'] then
      match acc with
      | top :: accRest =>
        if top = ['.', '.'] then normSegs allowUp (seg :: acc) rest
        else normSegs allowUp accRest rest
      | [] => if allowUp then normSegs allowUp [seg] rest else normSegs allowUp [] rest
    else normSegs allowUp (seg :: acc) rest

/-- Models `path.posix.normalize`. -/
def pathNormalize (p : Str) : Str :=
  if p = [] then ['.']
  else
    let isAbs := p.head? = some '/'
    let hasTrail := p.getLast? = some '/'
    let segs := normSegs (!isAbs) [] (splitOnSlash p)
    let body := List.intercalate ['/'] segs
    if body = [] then
      if isAbs then ['/'] else if hasTrail then ['.', '/'] else ['.']
    else
      let body2 := if hasTrail then body ++ ['/'] else body
      if isAbs then '/' :: body2 else body2

/-- Models `path.posix.join(a, b)`: joins the non-empty parts with the
separator and normalizes; no parts gives `"."`. -/
def pathJoin (a b : Str) : Str :=
  let parts := [a, b].filter (· ≠ [])
  if parts = [] then ['.'] else pathNormalize (List.intercalate ['/'] parts)

/-! ## extractPagePaths -/

/-- The per-leaf path computation of `extractPagePaths`:
`item.startsWith('/') ? '../docs/specification' + item.slice(1)
                      : '../docs/' + path.join(basePath, item)`. -/
def leafFullPath (basePath item : Str) : Str :=
  if ['/'].isPrefixOf item then "../docs/specification".toList ++ item.drop 1
  else "../docs/".toList ++ pathJoin basePath item

/-- Models `extractPagePaths(items, basePath)`. -/
def extractPagePaths : PageNodes → Str → List Str
  | PageNodes.nil, _ => []
  | PageNodes.cons (PageNode.leaf s) rest, basePath =>
      leafFullPath basePath s :: extractPagePaths rest basePath
  | PageNodes.cons (PageNode.sub _ cs) rest, basePath =>
      extractPagePaths cs basePath ++ extractPagePaths rest basePath

/-- Modelled from the spec (section 4.2 / section 8, for refinement
comparison): the depth-first pre-order sequence of LeafPage occurrences of a
page tree. -/
def specPreorderLeaves : PageNodes → List Str
  | PageNodes.nil => []
  | PageNodes.cons (PageNode.leaf s) rest => s :: specPreorderLeaves rest
  | PageNodes.cons (PageNode.sub _ cs) rest =>
      specPreorderLeaves cs ++ specPreorderLeaves rest

/-! ## cleanMdxContent -/

def fmDelim : Str := "---".toList

/-- The frontmatter removal done by the anchored regex replacement in
`cleanMdxContent`: the match requires the string to begin with the three-dash
delimiter, then lazily reaches the earliest following delimiter, then
greedily consumes the newlines after it; the whole match is replaced by the
empty string.  No match leaves the content untouched. -/
def stripFrontmatter (cs : Str) : Str :=
  if fmDelim.isPrefixOf cs then
    match indexOfSub (cs.drop 3) fmDelim with
    | some j => ((cs.drop 3).drop (j + 3)).dropWhile (fun ch => ch = '\n')
    | none => cs
  else cs

/-- Whether the frontmatter regex matches at all. -/
def fmCandidate (s : Str) : Bool :=
  fmDelim.isPrefixOf s && (indexOfSub (s.drop 3) fmDelim).isSome

/-- Models `cleanMdxContent`. -/
def cleanMdxContent (content : Str) : Str :=
  jsTrim (stripFrontmatter content)

/-! ## Version selection -/

/-- The marker test `group.group.includes('Latest') ||
group.group.includes('2025-03-26')`. -/
def markerB (g : Group) : Bool :=
  hasSub g.group "Latest".toList || hasSub g.group "2025-03-26".toList

/-- Whether a ten-character window matches `\d{4}-\d{2}-\d{2}`. -/
def dateAt : Str → Option Str
  | a :: b :: c :: d :: e :: f :: g :: h :: i :: j :: _ =>
    if a.isDigit && b.isDigit && c.isDigit && d.isDigit && e == '-' &&
       f.isDigit && g.isDigit && h == '-' && i.isDigit && j.isDigit then
      some [a, b, c, d, e, f, g, h, i, j]
    else none
  | _ => none

/-- Models `label.match(/(\d{4}-\d{2}-\d{2})/)`: the earliest window matching
the date pattern. -/
def findDate : Str → Option Str
  | [] => none
  | c :: rest =>
    match dateAt (c :: rest) with
    | some d => some d
    | none => findDate rest

def msgNoTab : Str := "Specification tab not found in docs.json".toList

def msgNoVersions : Str := "No versioned specification groups found".toList

def msgNoLatest : Str := "Latest specification group not found".toList

/-- The tab lookup shared by both selection functions:
`tabs.find(tab => tab.tab.toLowerCase() === 'specification')`. -/
def findSpecTab (cfg : DocsConfig) : Option Tab :=
  cfg.tabs.find? (fun t => asciiLower t.tab == "specification".toList)

/-- The first loop of `findLatestSpecVersion`: scan groups in order; a group
whose label passes the marker test returns its date token if it has one,
otherwise the scan continues. -/
def firstMarkerDate : List Group → Option Str
  | [] => none
  | g :: rest =>
    if markerB g then
      match findDate g.group with
      | some d => some d
      | none => firstMarkerDate rest
    else firstMarkerDate rest

/-- Models `findLatestSpecVersion`.  The fallback collects every date token,
sorts ascending (JavaScript default sort compares strings lexicographically;
the order is total and antisymmetric, so the sorted list is unique and
insertion sort models it), reverses, and takes the first element. -/
def findLatestSpecVersion (cfg : DocsConfig) : Except Str Str :=
  match findSpecTab cfg with
  | none => Except.error msgNoTab
  | some specTab =>
    match firstMarkerDate specTab.groups with
    | some d => Except.ok d
    | none =>
      let dateGroups := specTab.groups.filterMap (fun g => findDate g.group)
      match (List.insertionSort (· ≤ ·) dateGroups).reverse with
      | d :: _ => Except.ok d
      | [] => Except.error msgNoVersions

/-- Models `getLatestSpecNavigation`: the first group passing the marker test
wins; there is no date fallback here. -/
def getLatestSpecNavigation (cfg : DocsConfig) : Except Str PageNodes :=
  match findSpecTab cfg with
  | none => Except.error msgNoTab
  | some specTab =>
    match specTab.groups.find? markerB with
    | some g => Except.ok g.pages
    | none => Except.error msgNoLatest

/-! ## Filesystem and aggregation -/

/-- Result of `fs.readFile`: success, non-existence, or any other I/O failure
(such as a permissions error). -/
inductive ReadResult where
  | ok (content : Str)
  | enoent
  | eacces
deriving DecidableEq

abbrev FS := Str → ReadResult

/-- The candidate list built for each page path. -/
def possiblePaths (pagePath : Str) : List Str :=
  [pagePath ++ ".mdx".toList, pagePath ++ ".md".toList, pagePath]

/-- The candidate loop: try to read each candidate in order; any failure
(whatever its kind) moves on to the next candidate. -/
def tryReadFirst (fs : FS) : List Str → Option (Str × Str)
  | [] => none
  | p :: rest =>
    match fs p with
    | ReadResult.ok content => some (p, content)
    | _ => tryReadFirst fs rest

inductive Sev where
  | info
  | warn
  | fatal
deriving DecidableEq

structure LogEntry where
  sev : Sev
  msg : Str
deriving DecidableEq

def missMsg (pagePath : Str) : Str :=
  "Could not find file for: ".toList ++ pagePath

def processedMsg (usedPath : Str) : Str :=
  "Processed: ".toList ++ usedPath

/-- The page title: `pagePath.replace(`specification/latestVersion/`, '')`
(template literal shown without braces). -/
def pageTitle (latestVersion pagePath : Str) : Str :=
  replaceFirst pagePath ("specification/".toList ++ latestVersion ++ ['/']) []

/-- One iteration of the aggregation loop: the emitted section (if any) and
the per-page console messages.  Mirrors the source exactly: a successful read
of an empty file leaves `content` falsy, so it falls to the missing-page
branch; a non-empty read whose cleaned content is empty emits nothing and logs
nothing. -/
def processPage (fs : FS) (latestVersion pagePath : Str) :
    Option Str × List LogEntry :=
  match tryReadFirst fs (possiblePaths pagePath) with
  | some (usedPath, content) =>
    if content ≠ [] then
      let cleanContent := cleanMdxContent content
      if cleanContent ≠ [] then
        (some ("# ".toList ++ pageTitle latestVersion pagePath ++
               "\n\n".toList ++ cleanContent),
         [⟨Sev.info, processedMsg usedPath⟩])
      else (none, [])
    else (none, [⟨Sev.warn, missMsg pagePath⟩])
  | none => (none, [⟨Sev.warn, missMsg pagePath⟩])

/-- The aggregation loop over all page paths, in navigation order. -/
def processPages (fs : FS) (latestVersion : Str) :
    List Str → List Str × List LogEntry
  | [] => ([], [])
  | p :: rest =>
    let r := processPage fs latestVersion p
    let rs := processPages fs latestVersion rest
    ((match r.1 with
      | some s => s :: rs.1
      | none => rs.1), r.2 ++ rs.2)

def sectionSep : Str := "\n\n---\n\n".toList

/-- The observable outcome of a completed run: the primary artifact text, the
per-page console messages, and `processedCount` (incremented exactly when a
section is pushed). -/
structure RunOutput where
  artifact : Str
  logs : List LogEntry
  processedCount : Nat
deriving DecidableEq

/-- Models `concatenateSpec` (primary artifact path; the optional
supplementary artifact is not needed by any claim).  An error value models the
thrown exception reaching the top-level handler and `process.exit(1)`. -/
def concatenateSpec (fs : FS) (cfg : DocsConfig) : Except Str RunOutput :=
  match findLatestSpecVersion cfg with
  | Except.error e => Except.error e
  | Except.ok latestVersion =>
    match getLatestSpecNavigation cfg with
    | Except.error e => Except.error e
    | Except.ok specNavigation =>
      let pagePaths := extractPagePaths specNavigation []
      let res := processPages fs latestVersion pagePaths
      Except.ok ⟨List.intercalate sectionSep res.1, res.2, res.1.length⟩

/-! ## Concrete inputs used by the claim theorems -/

def raw1 : Str := "---\ntitle: Lifecycle\n---\n\nLifecycle body.".toList

def raw2 : Str := "---\ntitle: Tools\n---\n\nTools body.".toList

def cfgC2 : DocsConfig :=
  ⟨[⟨"Specification".toList,
     [⟨"2025-06-18 (Latest)".toList,
       pnodes [PageNode.leaf "/basic/lifecycle".toList,
               PageNode.leaf "/server/tools".toList]⟩]⟩]⟩

def fsC2 : FS := fun p =>
  if p = "../docs/specification/basic/lifecycle.mdx".toList then ReadResult.ok raw1
  else if p = "../docs/specification/server/tools.mdx".toList then ReadResult.ok raw2
  else ReadResult.enoent

def expectedC2 : Str :=
  "# basic/lifecycle\n\nLifecycle body.\n\n---\n\n# server/tools\n\nTools body.".toList

def cfgC3 : DocsConfig :=
  ⟨[⟨"Specification".toList,
     [⟨"2024-11-05".toList, pnodes [PageNode.leaf "/basic/index".toList]⟩]⟩]⟩

def pagesW3 : PageNodes := pnodes [PageNode.leaf "/basic/lifecycle".toList]

def gW3 : Group := ⟨"2025-06-18 (Latest)".toList, pagesW3⟩

def tabW3 : Tab := ⟨"Specification".toList, [gW3]⟩

def cfgW3 : DocsConfig := ⟨[tabW3]⟩

def cfgC4 : DocsConfig :=
  ⟨[⟨"Specification".toList,
     [⟨"2024-11-05".toList, pnodes [PageNode.leaf "/a".toList]⟩,
      ⟨"2025-06-18".toList, pnodes [PageNode.leaf "/b".toList]⟩]⟩]⟩

def tabW4 : Tab :=
  ⟨"Specification".toList,
   [⟨"2024-11-05".toList, pnodes [PageNode.leaf "/a".toList]⟩,
    ⟨"2025-06-18".toList, pnodes [PageNode.leaf "/b".toList]⟩]⟩

def cfgW4 : DocsConfig := ⟨[tabW4]⟩

def cCE5 : Str := "---a-------b---c".toList

def cW5 : Str := "---\ntitle: a\n---\nbody".toList

def fsPerm : FS := fun _ => ReadResult.eacces

def fsMiss : FS := fun _ => ReadResult.enoent

def ver0 : Str := "2025-06-18".toList

def pC6 : Str := "perm/page".toList

def fsC8 : FS := fun p =>
  if p = "q.mdx".toList then ReadResult.eacces
  else if p = "q.md".toList then ReadResult.ok "body".toList
  else ReadResult.enoent

def fsW8 : FS := fun p =>
  if p = "w.mdx".toList then ReadResult.ok "b".toList else ReadResult.enoent

def rawQ : Str := "---\nt\n---\n".toList

def rawR : Str := "---\nt\n---\nR body".toList

def navC9 : PageNodes :=
  pnodes [PageNode.leaf "/p".toList, PageNode.leaf "/q".toList,
          PageNode.leaf "/r".toList]

def cfgC9 : DocsConfig :=
  ⟨[⟨"Specification".toList, [⟨"2025-06-18 (Latest)".toList, navC9⟩]⟩]⟩

def fsC9 : FS := fun p =>
  if p = "../docs/specificationq.mdx".toList then ReadResult.ok rawQ
  else if p = "../docs/specificationr.mdx".toList then ReadResult.ok rawR
  else ReadResult.enoent

def fsC10 : FS := fun p =>
  if p = "e.mdx".toList then ReadResult.ok [] else ReadResult.enoent

def rawFM : Str := "---\ntitle: only\n---\n".toList

def fsW10 : FS := fun p =>
  if p = "fm.mdx".toList then ReadResult.ok rawFM else ReadResult.enoent

/-! ## Helper lemmas -/

lemma head_dropWhile_ws (l : Str) (a : Char)
    (h : (l.dropWhile jsWS).head? = some a) : jsWS a = false := by
  induction l with
  | nil => simp [List.dropWhile] at h
  | cons x t ih =>
    rw [List.dropWhile_cons] at h
    by_cases hx : jsWS x = true
    · rw [if_pos hx] at h
      exact ih h
    · rw [if_neg hx] at h
      simp only [List.head?_cons, Option.some.injEq] at h
      subst h
      simpa using hx

lemma dropWhile_eq_self_of_head_false (l : Str)
    (h : ∀ a, l.head? = some a → jsWS a = false) : l.dropWhile jsWS = l := by
  cases l with
  | nil => rfl
  | cons x t => simp [List.dropWhile_cons, h x rfl]

lemma dropWhile_ws_idem (l : Str) :
    (l.dropWhile jsWS).dropWhile jsWS = l.dropWhile jsWS :=
  dropWhile_eq_self_of_head_false _ (fun a ha => head_dropWhile_ws l a ha)

lemma trailTrim_decomp (u : Str) :
    (u.reverse.dropWhile jsWS).reverse ++ (u.reverse.takeWhile jsWS).reverse = u := by
  calc (u.reverse.dropWhile jsWS).reverse ++ (u.reverse.takeWhile jsWS).reverse
      = (u.reverse.takeWhile jsWS ++ u.reverse.dropWhile jsWS).reverse := by
        rw [List.reverse_append]
    _ = (u.reverse).reverse := by rw [List.takeWhile_append_dropWhile]
    _ = u := List.reverse_reverse u

lemma head_trailTrim (u : Str) (a : Char)
    (h : ((u.reverse.dropWhile jsWS).reverse).head? = some a) : u.head? = some a := by
  have hd := trailTrim_decomp u
  cases hrev : (u.reverse.dropWhile jsWS).reverse with
  | nil => rw [hrev] at h; simp at h
  | cons b l =>
    rw [hrev] at h hd
    simp only [List.head?_cons, Option.some.injEq] at h
    subst h
    rw [← hd]
    simp

lemma trim_idem (s : Str) : jsTrim (jsTrim s) = jsTrim s := by
  unfold jsTrim
  have h1 : (((s.dropWhile jsWS).reverse.dropWhile jsWS).reverse).dropWhile jsWS =
      ((s.dropWhile jsWS).reverse.dropWhile jsWS).reverse := by
    apply dropWhile_eq_self_of_head_false
    intro a ha
    have h2 : (s.dropWhile jsWS).head? = some a :=
      head_trailTrim (s.dropWhile jsWS) a ha
    have h3 : ((s.dropWhile jsWS).dropWhile jsWS).head? = some a := by
      rw [dropWhile_ws_idem]; exact h2
    exact head_dropWhile_ws (s.dropWhile jsWS) a h3
  rw [h1, List.reverse_reverse, dropWhile_ws_idem]

lemma strip_eq_self_of_not_fm (s : Str) (h : fmCandidate s = false) :
    stripFrontmatter s = s := by
  unfold stripFrontmatter
  unfold fmCandidate at h
  by_cases hp : fmDelim.isPrefixOf s = true
  · rw [hp] at h
    simp only [Bool.true_and] at h
    rw [if_pos hp]
    cases hidx : indexOfSub (s.drop 3) fmDelim with
    | none => rfl
    | some j => rw [hidx] at h; simp at h
  · rw [if_neg hp]

/-! ## Claim theorems -/

/-- C1: the claim states that a leaf reference starting with the
namespace-root marker is mapped to the specification base directory joined,
as a path, with the remainder of the reference.  The code instead drops the
marker and concatenates the remainder directly onto the base directory with
no separator: `/basic/lifecycle` becomes `../docs/specificationbasic/lifecycle`,
not `../docs/specification/basic/lifecycle`.  This theorem evaluates the
embedded code at the failing input and shows the divergence. -/
theorem claim_C1_rootMarker_eval :
    extractPagePaths (pnodes [PageNode.leaf "/basic/lifecycle".toList]) [] =
      ["../docs/specificationbasic/lifecycle".toList] ∧
    "../docs/specificationbasic/lifecycle".toList ≠
      "../docs/specification".toList ++ "/".toList ++ "basic/lifecycle".toList := by
  exact ⟨by decide, by decide⟩

/-- C2 counterexample: on the end-to-end input of the claim (one Specification
tab, one group labelled 2025-06-18 (Latest), pages /basic/lifecycle and
/server/tools, with the two .mdx files present under the specification base
directory), the run completes but the primary artifact is the empty string —
both pages are reported missing, because the rewritten page paths lack a
separator after the base directory — and not the claimed two-section text. -/
theorem claim_C2_counterexample :
    concatenateSpec fsC2 cfgC2 =
      Except.ok ⟨[], [⟨Sev.warn, missMsg "../docs/specificationbasic/lifecycle".toList⟩,
                      ⟨Sev.warn, missMsg "../docs/specificationserver/tools".toList⟩], 0⟩ ∧
    ([] : Str) ≠ expectedC2 := by
  exact ⟨rfl, by decide⟩

/-- C2 amended: on that same input the primary artifact equals the empty
string, zero pages are processed, and each of the two (unresolvable) rewritten
page paths receives a missing-page warning. -/
theorem claim_C2_amended :
    concatenateSpec fsC2 cfgC2 =
      Except.ok ⟨[], [⟨Sev.warn, missMsg "../docs/specificationbasic/lifecycle".toList⟩,
                      ⟨Sev.warn, missMsg "../docs/specificationserver/tools".toList⟩], 0⟩ :=
  rfl

/-- C5 counterexample: `cleanMdxContent` is not idempotent on every input.
After one pass over this input the output itself begins with a
frontmatter-shaped block, so a second pass strips again. -/
theorem claim_C5_counterexample :
    cleanMdxContent (cleanMdxContent cCE5) ≠ cleanMdxContent cCE5 := by
  decide

/-- C5 amended: `cleanMdxContent` is idempotent on every content whose
first-pass output is not itself matched by the frontmatter pattern (in
particular on all outputs not starting with the delimiter); the second
application then strips nothing and re-trims trimmed text. -/
theorem claim_C5_amended (c : Str) (h : fmCandidate (cleanMdxContent c) = false) :
    cleanMdxContent (cleanMdxContent c) = cleanMdxContent c := by
  have h2 : stripFrontmatter (cleanMdxContent c) = cleanMdxContent c :=
    strip_eq_self_of_not_fm _ h
  show jsTrim (stripFrontmatter (cleanMdxContent c)) = cleanMdxContent c
  rw [h2]
  show jsTrim (jsTrim (stripFrontmatter c)) = jsTrim (stripFrontmatter c)
  exact trim_idem _

/-- C5 witness: a concrete frontmatter-plus-body document satisfies the
hypothesis of the amended claim. -/
theorem claim_C5_amended_witness :
    fmCandidate (cleanMdxContent cW5) = false ∧
      cleanMdxContent (cleanMdxContent cW5) = cleanMdxContent cW5 :=
  ⟨by decide, claim_C5_amended cW5 (by decide)⟩

lemma firstMarkerDate_of_find (gs : List Group) (g : Group) (d : Str)
    (hfind : gs.find? markerB = some g) (hd : findDate g.group = some d) :
    firstMarkerDate gs = some d := by
  induction gs with
  | nil => simp at hfind
  | cons a t ih =>
    by_cases hm : markerB a = true
    · rw [List.find?_cons_of_pos _ hm, Option.some.injEq] at hfind
      subst hfind
      simp [firstMarkerDate, hm, hd]
    · rw [List.find?_cons_of_neg _ hm] at hfind
      simp only [firstMarkerDate, hm]
      simp only [Bool.false_eq_true, if_false]
      exact ih hfind

lemma firstMarkerDate_none (gs : List Group)
    (h : ∀ g ∈ gs, markerB g = false) : firstMarkerDate gs = none := by
  induction gs with
  | nil => rfl
  | cons a t ih =>
    have ha : markerB a = false := h a (by simp)
    simp only [firstMarkerDate, ha, Bool.false_eq_true, if_false]
    exact ih (fun g hg => h g (by simp [hg]))

lemma sortRevHead_max (l : List Str) (m : Str)
    (h : ((List.insertionSort (· ≤ ·) l).reverse).head? = some m) :
    m ∈ l ∧ ∀ x ∈ l, x ≤ m := by
  have hperm := List.perm_insertionSort (α := Str) (· ≤ ·) l
  have hsort := List.sorted_insertionSort (α := Str) (· ≤ ·) l
  cases hrev : (List.insertionSort (· ≤ ·) l).reverse with
  | nil => rw [hrev] at h; simp at h
  | cons b t =>
    rw [hrev] at h
    simp only [List.head?_cons, Option.some.injEq] at h
    subst h
    have hmem : b ∈ (List.insertionSort (· ≤ ·) l).reverse := by
      rw [hrev]; exact List.mem_cons_self _ _
    refine ⟨hperm.mem_iff.mp (List.mem_reverse.mp hmem), ?_⟩
    intro x hx
    have hx2 : x ∈ (List.insertionSort (· ≤ ·) l).reverse :=
      List.mem_reverse.mpr (hperm.mem_iff.mpr hx)
    rw [hrev] at hx2
    rcases List.mem_cons.mp hx2 with h1 | h1
    · exact le_of_eq h1
    · have hpw : ((List.insertionSort (· ≤ ·) l).reverse).Pairwise
          (fun a b => b ≤ a) := List.pairwise_reverse.mpr hsort
      rw [hrev] at hpw
      exact (List.pairwise_cons.mp hpw).1 x h1

/-- C3 counterexample: with a single group labelled by a bare date and no
Latest or anchor marker, version selection succeeds through the date fallback
while page-tree selection throws — the two selections are not a single
selection of one group, and one can succeed while the other fails. -/
theorem claim_C3_counterexample :
    findLatestSpecVersion cfgC3 = Except.ok "2024-11-05".toList ∧
      getLatestSpecNavigation cfgC3 = Except.error msgNoLatest :=
  ⟨rfl, rfl⟩

/-- C3 amended: the two selection functions agree exactly when the first
group passing the marker test also carries a date token; in that case both
return that same group's date and pages.  Otherwise they can diverge:
with no marker-passing group, page-tree selection fails even when version
selection succeeds via the date fallback. -/
theorem claim_C3_amended (cfg : DocsConfig) (tab : Tab) (g : Group) (d : Str)
    (hTab : findSpecTab cfg = some tab)
    (hG : tab.groups.find? markerB = some g)
    (hD : findDate g.group = some d) :
    findLatestSpecVersion cfg = Except.ok d ∧
      getLatestSpecNavigation cfg = Except.ok g.pages := by
  constructor
  · simp only [findLatestSpecVersion, hTab,
      firstMarkerDate_of_find tab.groups g d hG hD]
  · simp only [getLatestSpecNavigation, hTab, hG]

/-- C3 witness: the agreement case of the amended claim at a concrete
configuration whose first marker group carries a date token. -/
theorem claim_C3_amended_witness :
    findLatestSpecVersion cfgW3 = Except.ok "2025-06-18".toList ∧
      getLatestSpecNavigation cfgW3 = Except.ok gW3.pages :=
  claim_C3_amended cfgW3 tabW3 gW3 "2025-06-18".toList rfl rfl rfl

/-- C4 counterexample: with two date-labelled groups and no marker, version
selection does return the lexicographically greatest date, but the group's
pages are not yielded — the page-tree lookup throws. -/
theorem claim_C4_counterexample :
    findLatestSpecVersion cfgC4 = Except.ok "2025-06-18".toList ∧
      getLatestSpecNavigation cfgC4 = Except.error msgNoLatest :=
  ⟨rfl, rfl⟩

/-- C4 amended: for every navigation tree whose Specification tab has at
least one date-labelled group and no group passing the marker test, version
selection succeeds and returns the lexicographically greatest date token, but
the group's pages are not yielded: the page-tree lookup fails, aborting the
run. -/
theorem claim_C4_amended (cfg : DocsConfig) (tab : Tab)
    (hTab : findSpecTab cfg = some tab)
    (hNoMark : ∀ g ∈ tab.groups, markerB g = false)
    (hDates : tab.groups.filterMap (fun g => findDate g.group) ≠ []) :
    ∃ v, findLatestSpecVersion cfg = Except.ok v ∧
      v ∈ tab.groups.filterMap (fun g => findDate g.group) ∧
      (∀ d ∈ tab.groups.filterMap (fun g => findDate g.group), d ≤ v) ∧
      getLatestSpecNavigation cfg = Except.error msgNoLatest := by
  have hfmd := firstMarkerDate_none tab.groups hNoMark
  have hfind : tab.groups.find? markerB = none :=
    List.find?_eq_none.mpr (fun g hg => by simp [hNoMark g hg])
  cases hrev : ((List.insertionSort (· ≤ ·)
      (tab.groups.filterMap (fun g => findDate g.group))).reverse) with
  | nil =>
    exfalso
    apply hDates
    have hlen := congrArg List.length hrev
    simp only [List.length_reverse, List.length_insertionSort,
      List.length_nil] at hlen
    exact List.eq_nil_of_length_eq_zero hlen
  | cons d t =>
    have hmax := sortRevHead_max (tab.groups.filterMap (fun g => findDate g.group)) d
      (by rw [hrev]; rfl)
    refine ⟨d, ?_, hmax.1, hmax.2, ?_⟩
    · simp only [findLatestSpecVersion, hTab, hfmd]
      rw [hrev]
    · simp only [getLatestSpecNavigation, hTab, hfind]

/-- C4 witness: the amended claim at a concrete two-group marker-free
configuration. -/
theorem claim_C4_amended_witness :
    ∃ v, findLatestSpecVersion cfgW4 = Except.ok v ∧
      v ∈ tabW4.groups.filterMap (fun g => findDate g.group) ∧
      (∀ d ∈ tabW4.groups.filterMap (fun g => findDate g.group), d ≤ v) ∧
      getLatestSpecNavigation cfgW4 = Except.error msgNoLatest :=
  claim_C4_amended cfgW4 tabW4 rfl (by decide) (by decide)

lemma tryReadFirst_none_spec (fs : FS) (cands : List Str)
    (h : tryReadFirst fs cands = none) :
    ∀ c ∈ cands, ∀ s, fs c ≠ ReadResult.ok s := by
  induction cands with
  | nil => simp
  | cons a rest ih =>
    unfold tryReadFirst at h
    cases ha : fs a with
    | ok w => rw [ha] at h; cases h
    | enoent =>
      rw [ha] at h
      intro c hc s
      rcases List.mem_cons.mp hc with h1 | h1
      · subst h1; rw [ha]; intro hcon; cases hcon
      · exact ih h c h1 s
    | eacces =>
      rw [ha] at h
      intro c hc s
      rcases List.mem_cons.mp hc with h1 | h1
      · subst h1; rw [ha]; intro hcon; cases hcon
      · exact ih h c h1 s

lemma tryReadFirst_eq_none (fs : FS) (cands : List Str)
    (h : ∀ c ∈ cands, ∀ s, fs c ≠ ReadResult.ok s) :
    tryReadFirst fs cands = none := by
  induction cands with
  | nil => rfl
  | cons c rest ih =>
    unfold tryReadFirst
    cases hc : fs c with
    | ok s => exact absurd hc (h c (by simp) s)
    | enoent => exact ih (fun x hx s => h x (by simp [hx]) s)
    | eacces => exact ih (fun x hx s => h x (by simp [hx]) s)

lemma tryReadFirst_some_spec (fs : FS) (cands : List Str) (u s : Str)
    (h : tryReadFirst fs cands = some (u, s)) :
    fs u = ReadResult.ok s ∧
      ∃ l₁ l₂, cands = l₁ ++ u :: l₂ ∧ ∀ c ∈ l₁, ∀ t, fs c ≠ ReadResult.ok t := by
  induction cands with
  | nil => simp [tryReadFirst] at h
  | cons c rest ih =>
    unfold tryReadFirst at h
    cases hc : fs c with
    | ok w =>
      rw [hc] at h
      simp only [Option.some.injEq, Prod.mk.injEq] at h
      obtain ⟨h1, h2⟩ := h
      subst h1; subst h2
      exact ⟨hc, [], rest, rfl, by simp⟩
    | enoent =>
      rw [hc] at h
      obtain ⟨h1, l₁, l₂, he, hfail⟩ := ih h
      refine ⟨h1, c :: l₁, l₂, by simp [he], ?_⟩
      intro x hx t
      rcases List.mem_cons.mp hx with h2 | h2
      · subst h2; rw [hc]; intro hcon; cases hcon
      · exact hfail x h2 t
    | eacces =>
      rw [hc] at h
      obtain ⟨h1, l₁, l₂, he, hfail⟩ := ih h
      refine ⟨h1, c :: l₁, l₂, by simp [he], ?_⟩
      intro x hx t
      rcases List.mem_cons.mp hx with h2 | h2
      · subst h2; rw [hc]; intro hcon; cases hcon
      · exact hfail x h2 t

/-- C6 counterexample: a page whose every candidate read fails with a
permissions error produces exactly the same outcome as a page whose
candidates do not exist — no section and a single warning — and the severity
of the recorded message is the ordinary `warn`, not anything higher. -/
theorem claim_C6_counterexample :
    processPage fsPerm ver0 pC6 = processPage fsMiss ver0 pC6 ∧
      processPage fsPerm ver0 pC6 = (none, [⟨Sev.warn, missMsg pC6⟩]) :=
  ⟨rfl, rfl⟩

/-- C6 amended: when every candidate read for a page fails — whether with
non-existence or with a genuine I/O error such as a permissions failure — the
page is skipped with the same ordinary warn-severity missing-page message;
no higher-severity entry is produced and the aggregation continues (the
per-page step is total and returns normally). -/
theorem claim_C6_amended (fs : FS) (v p : Str)
    (h : ∀ c ∈ possiblePaths p, ∀ s, fs c ≠ ReadResult.ok s) :
    processPage fs v p = (none, [⟨Sev.warn, missMsg p⟩]) := by
  unfold processPage
  rw [tryReadFirst_eq_none fs (possiblePaths p) h]

/-- C6 witness: the amended claim at a concrete page on an all-denied
filesystem. -/
theorem claim_C6_amended_witness :
    processPage fsPerm ver0 "x".toList =
      (none, [⟨Sev.warn, missMsg "x".toList⟩]) :=
  claim_C6_amended fsPerm ver0 "x".toList (fun _ _ s h => by cases h)

lemma extractPagePaths_eq_map :
    ∀ (items : PageNodes) (bp : Str),
      extractPagePaths items bp = (specPreorderLeaves items).map (leafFullPath bp)
  | PageNodes.nil, _ => rfl
  | PageNodes.cons (PageNode.leaf s) rest, bp => by
      simp [extractPagePaths, specPreorderLeaves, extractPagePaths_eq_map rest bp]
  | PageNodes.cons (PageNode.sub lb cs) rest, bp => by
      simp [extractPagePaths, specPreorderLeaves, extractPagePaths_eq_map cs bp,
        extractPagePaths_eq_map rest bp]

/-- C7: the flattener is a pure total function (its embedding is a total Lean
function), the empty tree yields the empty sequence, and the output is
exactly the depth-first pre-order sequence of LeafPage occurrences, each
mapped through the per-leaf path computation — so a subgroup's pages appear
contiguously, in declared order, at the subgroup's position among its
siblings. -/
theorem claim_C7_flattener_preorder (items : PageNodes) (basePath : Str) :
    extractPagePaths items basePath =
      (specPreorderLeaves items).map (leafFullPath basePath) ∧
    extractPagePaths PageNodes.nil basePath = [] :=
  ⟨extractPagePaths_eq_map items basePath, rfl⟩

/-- C8 counterexample: resolution does not use the first candidate that
exists on the filesystem.  Here the first candidate (`q.mdx`) exists but its
read fails with a permissions error, so resolution silently moves on and uses
the second candidate (`q.md`). -/
theorem claim_C8_counterexample :
    tryReadFirst fsC8 (possiblePaths "q".toList) =
      some ("q.md".toList, "body".toList) ∧
    fsC8 "q.mdx".toList ≠ ReadResult.enoent ∧
    "q.md".toList ≠ "q.mdx".toList :=
  ⟨rfl, by decide, by decide⟩

/-- C8 amended: resolution probes exactly the three candidates, in the order
rich extension, plain extension, unmodified path, and uses the first whose
read succeeds (a candidate that exists but cannot be read is skipped exactly
like a missing one); if no candidate read succeeds the result is a miss
(`none`), not an abort. -/
theorem claim_C8_amended (fs : FS) (p : Str) :
    possiblePaths p = [p ++ ".mdx".toList, p ++ ".md".toList, p] ∧
    (tryReadFirst fs (possiblePaths p) = none →
      ∀ c ∈ possiblePaths p, ∀ s, fs c ≠ ReadResult.ok s) ∧
    (∀ u s, tryReadFirst fs (possiblePaths p) = some (u, s) →
      fs u = ReadResult.ok s ∧
      ∃ l₁ l₂, possiblePaths p = l₁ ++ u :: l₂ ∧
        ∀ c ∈ l₁, ∀ t, fs c ≠ ReadResult.ok t) := by
  refine ⟨rfl, ?_, ?_⟩
  · intro hnone
    exact tryReadFirst_none_spec fs (possiblePaths p) hnone
  · intro u s hsome
    exact tryReadFirst_some_spec fs (possiblePaths p) u s hsome

/-- C8 witness: the amended claim applied at a concrete page whose first
candidate resolves. -/
theorem claim_C8_amended_witness :
    fsW8 "w.mdx".toList = ReadResult.ok "b".toList ∧
      ∃ l₁ l₂, possiblePaths "w".toList = l₁ ++ "w.mdx".toList :: l₂ ∧
        ∀ c ∈ l₁, ∀ t, fsW8 c ≠ ReadResult.ok t :=
  (claim_C8_amended fsW8 "w".toList).2.2 "w.mdx".toList "b".toList rfl

lemma processPages_fst (fs : FS) (v : Str) (ps : List Str) :
    (processPages fs v ps).1 = ps.filterMap (fun q => (processPage fs v q).1) := by
  induction ps with
  | nil => rfl
  | cons p rest ih =>
    cases h : (processPage fs v p).1 with
    | some sct =>
      show (match (processPage fs v p).1 with
            | some s => s :: (processPages fs v rest).1
            | none => (processPages fs v rest).1) =
          List.filterMap (fun q => (processPage fs v q).1) (p :: rest)
      rw [h, List.filterMap_cons, h, ih]
    | none =>
      show (match (processPage fs v p).1 with
            | some s => s :: (processPages fs v rest).1
            | none => (processPages fs v rest).1) =
          List.filterMap (fun q => (processPage fs v q).1) (p :: rest)
      rw [h, List.filterMap_cons, h, ih]

lemma filterMap_filter_ne (f : Str → Option Str) (l : List Str) (P : Str)
    (hP : f P = none) :
    (l.filter (fun q => q ≠ P)).filterMap f = l.filterMap f := by
  induction l with
  | nil => rfl
  | cons a t ih =>
    rw [List.filter_cons]
    by_cases ha : a = P
    · subst ha
      rw [if_neg (by simp), ih, List.filterMap_cons, hP]
    · rw [if_pos (by simp [ha]), List.filterMap_cons, List.filterMap_cons, ih]

lemma processPages_logs_mem (fs : FS) (v : Str) (ps : List Str) (P : Str)
    (hP : P ∈ ps) (e : LogEntry) (he : e ∈ (processPage fs v P).2) :
    e ∈ (processPages fs v ps).2 := by
  induction ps with
  | nil => simp at hP
  | cons a t ih =>
    show e ∈ (processPage fs v a).2 ++ (processPages fs v t).2
    rcases List.mem_cons.mp hP with h1 | h1
    · subst h1; exact List.mem_append_left _ he
    · exact List.mem_append_right _ (ih h1)

lemma findVersion_error_msgs (cfg : DocsConfig) (e : Str)
    (h : findLatestSpecVersion cfg = Except.error e) :
    e = msgNoTab ∨ e = msgNoVersions := by
  unfold findLatestSpecVersion at h
  cases htab : findSpecTab cfg with
  | none =>
    rw [htab] at h
    simp only [Except.error.injEq] at h
    exact Or.inl h.symm
  | some tab =>
    rw [htab] at h
    simp only at h
    cases hf : firstMarkerDate tab.groups with
    | some d => rw [hf] at h; cases h
    | none =>
      rw [hf] at h
      simp only at h
      cases hrev : ((List.insertionSort (· ≤ ·)
          (tab.groups.filterMap (fun g => findDate g.group))).reverse) with
      | cons d t => rw [hrev] at h; cases h
      | nil =>
        rw [hrev] at h
        simp only [Except.error.injEq] at h
        exact Or.inr h.symm

lemma getNav_error_msgs (cfg : DocsConfig) (e : Str)
    (h : getLatestSpecNavigation cfg = Except.error e) :
    e = msgNoTab ∨ e = msgNoLatest := by
  unfold getLatestSpecNavigation at h
  cases htab : findSpecTab cfg with
  | none =>
    rw [htab] at h
    simp only [Except.error.injEq] at h
    exact Or.inl h.symm
  | some tab =>
    rw [htab] at h
    simp only at h
    cases hf : tab.groups.find? markerB with
    | some g => rw [hf] at h; cases h
    | none =>
      rw [hf] at h
      simp only [Except.error.injEq] at h
      exact Or.inr h.symm

lemma concat_error_msgs (fs : FS) (cfg : DocsConfig) (e : Str)
    (h : concatenateSpec fs cfg = Except.error e) :
    e = msgNoTab ∨ e = msgNoVersions ∨ e = msgNoLatest := by
  unfold concatenateSpec at h
  cases hv : findLatestSpecVersion cfg with
  | error e1 =>
    rw [hv] at h
    simp only [Except.error.injEq] at h
    subst h
    rcases findVersion_error_msgs cfg e1 hv with h1 | h1
    · exact Or.inl h1
    · exact Or.inr (Or.inl h1)
  | ok v =>
    rw [hv] at h
    simp only at h
    cases hn : getLatestSpecNavigation cfg with
    | error e2 =>
      rw [hn] at h
      simp only [Except.error.injEq] at h
      subst h
      rcases getNav_error_msgs cfg e2 hn with h1 | h1
      · exact Or.inl h1
      · exact Or.inr (Or.inr h1)
    | ok nav => rw [hn] at h; simp at h

/-- C9 counterexample: a run with a missing page P and a resolvable page Q
whose cleaned content is empty.  P gets its warning and the run completes
with a zero status, but the output does not contain a section for every
other resolvable page: Q resolves to a readable file yet contributes no
section (and no warning), so only one of the two other pages appears. -/
theorem claim_C9_counterexample :
    concatenateSpec fsC9 cfgC9 =
      Except.ok ⟨"# ../docs/specificationr\n\nR body".toList,
                 [⟨Sev.warn, missMsg "../docs/specificationp".toList⟩,
                  ⟨Sev.info, processedMsg "../docs/specificationr.mdx".toList⟩], 1⟩ ∧
    tryReadFirst fsC9 (possiblePaths "../docs/specificationq".toList) =
      some ("../docs/specificationq.mdx".toList, rawQ) ∧
    (processPage fsC9 "2025-06-18".toList "../docs/specificationq".toList).1 = none :=
  ⟨rfl, rfl, rfl⟩

/-- C9 amended: when some flattened page path P has no successful candidate
read, the run still completes with a zero status; the artifact equals the
aggregation of all the other pages (removing P changes nothing), in unchanged
navigation order, restricted to those pages that yield a section (resolvable
pages with non-empty cleaned content); a warning naming P is recorded; and a
non-zero status arises only from the missing-tab and unresolvable-version
errors. -/
theorem claim_C9_amended (fs : FS) (cfg : DocsConfig) (v : Str)
    (nav : PageNodes) (P : Str)
    (hv : findLatestSpecVersion cfg = Except.ok v)
    (hn : getLatestSpecNavigation cfg = Except.ok nav)
    (hP : P ∈ extractPagePaths nav [])
    (hmiss : tryReadFirst fs (possiblePaths P) = none) :
    ∃ out, concatenateSpec fs cfg = Except.ok out ∧
      out.artifact = List.intercalate sectionSep
        (((extractPagePaths nav []).filter (fun q => q ≠ P)).filterMap
          (fun q => (processPage fs v q).1)) ∧
      LogEntry.mk Sev.warn (missMsg P) ∈ out.logs ∧
      ∀ (fs2 : FS) (cfg2 : DocsConfig) (e : Str),
        concatenateSpec fs2 cfg2 = Except.error e →
          e = msgNoTab ∨ e = msgNoVersions ∨ e = msgNoLatest := by
  have hpp : processPage fs v P = (none, [⟨Sev.warn, missMsg P⟩]) := by
    unfold processPage
    rw [hmiss]
  refine ⟨⟨List.intercalate sectionSep (processPages fs v (extractPagePaths nav [])).1,
           (processPages fs v (extractPagePaths nav [])).2,
           (processPages fs v (extractPagePaths nav [])).1.length⟩, ?_, ?_, ?_, ?_⟩
  · unfold concatenateSpec
    rw [hv, hn]
  · show List.intercalate sectionSep (processPages fs v (extractPagePaths nav [])).1 = _
    rw [processPages_fst]
    rw [filterMap_filter_ne _ _ P (by rw [hpp])]
  · show LogEntry.mk Sev.warn (missMsg P) ∈
      (processPages fs v (extractPagePaths nav [])).2
    exact processPages_logs_mem fs v (extractPagePaths nav []) P hP _
      (by rw [hpp]; exact List.mem_cons_self _ _)
  · intro fs2 cfg2 e he
    exact concat_error_msgs fs2 cfg2 e he

/-- C9 witness: the amended claim at the concrete run of the counterexample
input, with P the unresolvable first page. -/
theorem claim_C9_amended_witness :
    ∃ out, concatenateSpec fsC9 cfgC9 = Except.ok out ∧
      out.artifact = List.intercalate sectionSep
        (((extractPagePaths navC9 []).filter
            (fun q => q ≠ "../docs/specificationp".toList)).filterMap
          (fun q => (processPage fsC9 "2025-06-18".toList q).1)) ∧
      LogEntry.mk Sev.warn (missMsg "../docs/specificationp".toList) ∈ out.logs ∧
      ∀ (fs2 : FS) (cfg2 : DocsConfig) (e : Str),
        concatenateSpec fs2 cfg2 = Except.error e →
          e = msgNoTab ∨ e = msgNoVersions ∨ e = msgNoLatest :=
  claim_C9_amended fsC9 cfgC9 "2025-06-18".toList navC9
    "../docs/specificationp".toList rfl rfl (by decide) rfl

/-- C10 counterexample: a page whose candidate file exists, is readable and
is entirely empty does not vanish silently — the empty read is falsy, so the
page falls into the missing-page branch and the ordinary missing-page warning
is recorded for it. -/
theorem claim_C10_counterexample :
    fsC10 "e.mdx".toList = ReadResult.ok [] ∧
    cleanMdxContent [] = [] ∧
    processPage fsC10 ver0 "e".toList = (none, [⟨Sev.warn, missMsg "e".toList⟩]) :=
  ⟨rfl, rfl, rfl⟩

/-- C10 amended: a resolved page whose raw content is non-empty but whose
cleaned content is empty (for example a frontmatter-only file) vanishes
silently — no section, no log entry of any kind, and, the processed count
being the number of emitted sections, no contribution to the summary.  A
resolved page whose raw content is entirely empty is instead treated as
missing and receives the ordinary missing-page warning. -/
theorem claim_C10_amended (fs : FS) (v p u c : Str)
    (hres : tryReadFirst fs (possiblePaths p) = some (u, c)) :
    (c ≠ [] → cleanMdxContent c = [] → processPage fs v p = (none, [])) ∧
    (c = [] → processPage fs v p = (none, [⟨Sev.warn, missMsg p⟩])) := by
  constructor
  · intro hne hclean
    simp [processPage, hres, hclean, hne]
  · intro hc
    subst hc
    simp [processPage, hres]

/-- C10 witness: the amended claim at a concrete frontmatter-only page. -/
theorem claim_C10_amended_witness :
    processPage fsW10 ver0 "fm".toList = (none, []) :=
  (claim_C10_amended fsW10 ver0 "fm".toList "fm.mdx".toList rawFM rfl).1
    (by decide) (by decide)

end SpecGen
